import Mathlib

/-!
Verification of the axon renderer core (src/axon/renderer.py).

The embedding translates the quantization / dithering / remapping /
compositing code of `renderer.py` into Lean.  Python integers become `ℕ`
(or `ℤ` where the source can go negative), Python lists become `List`,
in-place 2-D buffers become functions `ℕ → ℕ → α` with explicit pointwise
update, and fallible operations (list indexing that can raise `IndexError`,
division that can raise `ZeroDivisionError`) return `Option`.

The one part of the source that cannot be embedded exactly is the CIE-Lab
floating-point arithmetic (`_srgb_to_linear`, `_rgb_to_lab`, and the squared
Lab distances computed inside `_lab_nearest`): those values are IEEE-754
doubles of transcendental expressions.  They are abstracted as a parameter
`cd : ℕ → ℕ → ℕ → ℕ → ℚ` giving, for a coarse RGB bucket `(ri, gi, bi)` of
`_RGB_TO_256_LUT` and a palette position `i < _PAL_COUNT`, the squared Lab
distance between the bucket's representative color and palette entry `i`.
Every integer part of the source (the scan loop of `_lab_nearest`, the
bucket arithmetic of `_rgb_to_256`, `_idx_to_rgb`, the remap builders, the
dithering loops, posterize and the compositor) is translated faithfully,
and the theorems quantify over `cd`, so they hold for the real float table
in particular.  `cd0` below is a concrete representative table used to
instantiate witnesses and counterexamples.
-/

/-- RGB triple, each channel a Python int (0–255 at every call site). -/
abbrev RGB := ℕ × ℕ × ℕ

/-- A triple of rationals standing for one float RGB accumulator cell. -/
abbrev Q3 := ℚ × ℚ × ℚ

/-- Python list indexing `l[i]`: negative `i` counts from the end, and an
index out of range raises `IndexError` (here: `none`). -/
def pyGet (l : List ℕ) (i : ℤ) : Option ℕ :=
  let j : ℤ := if i < 0 then (l.length : ℤ) + i else i
  if 0 ≤ j then l[j.toNat]? else none

/-- Python `round`: round half to even (banker's rounding), modelled on `ℚ`. -/
def pyRound (q : ℚ) : ℤ :=
  let f := ⌊q⌋
  if q - f < 1/2 then f
  else if 1/2 < q - f then f + 1
  else if f % 2 = 0 then f else f + 1

/-- `max(0, min(255, z))` as the dithering loops clamp a channel. -/
def pyClamp (z : ℤ) : ℕ := (max 0 (min 255 z)).toNat

/-- `range(0, n, 2)`: the even numbers below `n`. -/
def pyRange2 (n : ℕ) : List ℕ := (List.range ((n + 1) / 2)).map (fun k => 2 * k)

/-- Pointwise update of a 2-D buffer, the meaning of `buf[y][x] = v`. -/
def upd {α : Type} (f : ℕ → ℕ → α) (y x : ℕ) (v : α) : ℕ → ℕ → α :=
  fun y' x' => if y' = y ∧ x' = x then v else f y' x'

/-- Map a fallible function over a list, failing on the first failure
(a Python `for` loop whose body may raise). -/
def mapO {α β : Type} (f : α → Option β) : List α → Option (List β)
  | [] => some []
  | a :: l =>
    match f a, mapO f l with
    | some b, some bs => some (b :: bs)
    | _, _ => none

/-- Fold a fallible step over a list (a Python loop threading state). -/
def foldO {α β : Type} (f : β → α → Option β) : β → List α → Option β
  | b, [] => some b
  | b, a :: l =>
    match f b a with
    | some b' => foldO f b' l
    | none => none

/-- The scan pattern shared by `_lab_nearest` and the inner loop of
`make_remap`: `best = 0; best_dist = inf; update on strict <`.  The input
pairs each candidate position with its distance; `none` is the initial
infinite distance. -/
def scanBest {δ : Type} [LinearOrder δ] (l : List (ℕ × δ)) : ℕ :=
  (l.foldl
    (fun acc p =>
      match acc.2 with
      | none => (p.1, some p.2)
      | some bd => if p.2 < bd then (p.1, some p.2) else acc)
    ((0 : ℕ), (none : Option δ))).1

/-- renderer.py line 11: the 6 axis values of the 6×6×6 color cube. -/
def _CUBE_VALUES : List ℕ := [0, 95, 135, 175, 215, 255]

/-- renderer.py line 14: the 24 grayscale values 8, 18, …, 238. -/
def _GRAY_VALUES : List ℕ := (List.range 24).map (fun i => 8 + 10 * i)

/-- renderer.py lines 50–56, `_idx_to_rgb`: ANSI-256 index back to RGB.
For `idx < 232` the code computes `i = idx - 16` (negative for the
reserved indices 0–15) and indexes `_CUBE_VALUES` with Python floor
division / modulo and Python negative-index semantics. -/
def _idx_to_rgb (idx : ℕ) : Option RGB :=
  if 232 ≤ idx then
    match pyGet _GRAY_VALUES ((idx : ℤ) - 232) with
    | some gv => some (gv, gv, gv)
    | none => none
  else
    let i : ℤ := (idx : ℤ) - 16
    match pyGet _CUBE_VALUES (Int.fdiv i 36),
          pyGet _CUBE_VALUES (Int.fdiv (Int.emod i 36) 6),
          pyGet _CUBE_VALUES (Int.emod i 6) with
    | some r, some g, some b => some (r, g, b)
    | _, _, _ => none

/-- renderer.py line 70: `_PAL_COUNT = len(_PALETTE_LAB)`, the 240 palette
entries 16–255. -/
def _PAL_COUNT : ℕ := 240

/-- renderer.py lines 73–86, `_lab_nearest`: scan the 240 palette entries
for the strictly smallest squared Lab distance (first minimum wins) and
return `best + 16`.  The float distances are the abstract input `d`. -/
def _lab_nearest (d : ℕ → ℚ) : ℕ :=
  scanBest ((List.range _PAL_COUNT).map (fun i => (i, d i))) + 16

/-- renderer.py line 91: the LUT samples every 8 values per channel. -/
def _LUT_STEP : ℕ := 8

/-- renderer.py lines 94–108, `_rgb_to_256`: the precomputed
`_RGB_TO_256_LUT[r // 8][g // 8][b // 8]`, whose cell for bucket
`(ri, gi, bi)` holds `_lab_nearest` of the bucket representative's Lab
distances.  `cd ri gi bi` is that cell's abstract distance row. -/
def _rgb_to_256 (cd : ℕ → ℕ → ℕ → ℕ → ℚ) (r g b : ℕ) : ℕ :=
  _lab_nearest (cd (r / _LUT_STEP) (g / _LUT_STEP) (b / _LUT_STEP))

/-- Re-quantizing a palette color: `_rgb_to_256` of `_idx_to_rgb`, the map
the spec's fixed-point property (section 8) is about. -/
def requantize (cd : ℕ → ℕ → ℕ → ℕ → ℚ) (k : ℕ) : Option ℕ :=
  (_idx_to_rgb k).map (fun p => _rgb_to_256 cd p.1 p.2.1 p.2.2)

/-- A concrete representative of the abstract Lab-distance table (all
distances zero; the scan then keeps the first palette entry).  Used to
instantiate witnesses and counterexamples at a concrete table. -/
def cd0 : ℕ → ℕ → ℕ → ℕ → ℚ := fun _ _ _ _ => 0

/-- A concrete all-black pixel accessor for witnesses. -/
def px0 : ℕ → ℕ → RGB := fun _ _ => (0, 0, 0)

section ScanLemmas

variable {δ : Type} [LinearOrder δ]

/-- The scan keeps its running best inside the candidate positions. -/
theorem scanBest_lt {n : ℕ} (l : List (ℕ × δ)) (hn : 0 < n)
    (h : ∀ p ∈ l, p.1 < n) : scanBest l < n := by
  unfold scanBest
  suffices H : ∀ acc : ℕ × Option δ, acc.1 < n →
      (l.foldl
        (fun acc p =>
          match acc.2 with
          | none => (p.1, some p.2)
          | some bd => if p.2 < bd then (p.1, some p.2) else acc) acc).1 < n by
    exact H ((0 : ℕ), none) hn
  induction l with
  | nil => intro acc hacc; simpa using hacc
  | cons p l ih =>
    intro acc hacc
    have hp : p.1 < n := h p (List.mem_cons_self p l)
    have hrest : ∀ q ∈ l, q.1 < n := fun q hq => h q (List.mem_cons_of_mem p hq)
    have := ih hrest
    simp only [List.foldl_cons]
    apply this
    rcases acc with ⟨b, bd⟩
    cases bd with
    | none => simpa using hp
    | some v =>
      by_cases hlt : p.2 < v
      · simp [hlt, hp]
      · simpa [hlt] using hacc

end ScanLemmas

/-- `_lab_nearest` always lands in the real palette range 16–255, whatever
the float distances are: the scan starts at position 0 and only ever moves
to a position below `_PAL_COUNT`. -/
theorem lab_nearest_range (d : ℕ → ℚ) :
    16 ≤ _lab_nearest d ∧ _lab_nearest d ≤ 255 := by
  unfold _lab_nearest
  have h : scanBest ((List.range _PAL_COUNT).map (fun i => (i, d i))) < _PAL_COUNT := by
    apply scanBest_lt _ (by norm_num [_PAL_COUNT])
    intro p hp
    rcases List.mem_map.mp hp with ⟨i, hi, rfl⟩
    exact List.mem_range.mp hi
  constructor
  · omega
  · have : _PAL_COUNT = 240 := rfl
    omega

/-- `_rgb_to_256` inherits the palette range from `_lab_nearest`. -/
theorem rgb_to_256_range (cd : ℕ → ℕ → ℕ → ℕ → ℚ) (r g b : ℕ) :
    16 ≤ _rgb_to_256 cd r g b ∧ _rgb_to_256 cd r g b ≤ 255 :=
  lab_nearest_range _

set_option maxRecDepth 4096 in
/-- `_idx_to_rgb` succeeds on every index below 256. -/
theorem idx_to_rgb_isSome {k : ℕ} (h : k < 256) : (_idx_to_rgb k).isSome = true := by
  have H : ∀ k : Fin 256, (_idx_to_rgb k.1).isSome = true := by decide
  exact H ⟨k, h⟩

section MapOLemmas

variable {α β : Type} {f : α → Option β}

/-- When every element succeeds with value `g a`, `mapO` is `map`. -/
theorem mapO_eq_map {g : α → β} {l : List α} (h : ∀ a ∈ l, f a = some (g a)) :
    mapO f l = some (l.map g) := by
  induction l with
  | nil => rfl
  | cons a l ih =>
    have ha : f a = some (g a) := h a (List.mem_cons_self a l)
    have hl : mapO f l = some (l.map g) := ih (fun b hb => h b (List.mem_cons_of_mem a hb))
    simp [mapO, ha, hl]

/-- Every element of a successful `mapO` result comes from some input. -/
theorem mapO_mem {l : List α} {L : List β} (hm : mapO f l = some L) :
    ∀ b ∈ L, ∃ a ∈ l, f a = some b := by
  induction l generalizing L with
  | nil =>
    intro b hb
    simp only [mapO] at hm
    rw [← Option.some.injEq] at hm  -- hm : some [] = some L
    cases hm
    simp at hb
  | cons a l ih =>
    intro b hb
    simp only [mapO] at hm
    cases hfa : f a with
    | none => rw [hfa] at hm; simp at hm
    | some c =>
      rw [hfa] at hm
      cases hml : mapO f l with
      | none => rw [hml] at hm; simp at hm
      | some cs =>
        rw [hml] at hm
        simp only [Option.some.injEq] at hm
        subst hm
        rcases List.mem_cons.mp hb with rfl | hb'
        · exact ⟨a, List.mem_cons_self a l, hfa⟩
        · rcases ih hml b hb' with ⟨a', ha', hfa'⟩
          exact ⟨a', List.mem_cons_of_mem a ha', hfa'⟩

/-- A successful `mapO` preserves length. -/
theorem mapO_length {l : List α} {L : List β} (hm : mapO f l = some L) :
    L.length = l.length := by
  induction l generalizing L with
  | nil =>
    simp only [mapO] at hm
    rw [← Option.some.injEq] at hm
    cases hm; rfl
  | cons a l ih =>
    simp only [mapO] at hm
    cases hfa : f a with
    | none => rw [hfa] at hm; simp at hm
    | some c =>
      rw [hfa] at hm
      cases hml : mapO f l with
      | none => rw [hml] at hm; simp at hm
      | some cs =>
        rw [hml] at hm
        simp only [Option.some.injEq] at hm
        subst hm
        simp [ih hml]

/-- `mapO` succeeds when every element does. -/
theorem mapO_isSome {l : List α} (h : ∀ a ∈ l, (f a).isSome = true) :
    (mapO f l).isSome = true := by
  induction l with
  | nil => rfl
  | cons a l ih =>
    obtain ⟨b, hb⟩ := Option.isSome_iff_exists.mp (h a (List.mem_cons_self a l))
    obtain ⟨bs, hbs⟩ := Option.isSome_iff_exists.mp
      (ih (fun c hc => h c (List.mem_cons_of_mem a hc)))
    simp [mapO, hb, hbs]

/-- `mapO` over a mapped list composes the functions. -/
theorem mapO_map {γ : Type} {g : γ → α} {l : List γ} :
    mapO f (l.map g) = mapO (fun c => f (g c)) l := by
  induction l with
  | nil => rfl
  | cons c l ih => simp [mapO, ih]

end MapOLemmas

/-- renderer.py lines 148–152: squared Euclidean RGB distance between a
palette-slot color and a custom palette color, exact Python ints. -/
def sqDist (a b : RGB) : ℤ :=
  ((a.1 : ℤ) - b.1) ^ 2 + ((a.2.1 : ℤ) - b.2.1) ^ 2 + ((a.2.2 : ℤ) - b.2.2) ^ 2

/-- renderer.py lines 146–152: the inner scan of `make_remap` over
`enumerate(palette_rgb)` (best = 0, strict-< update, first minimum wins). -/
def bestIndex (rgb : RGB) (palette : List RGB) : ℕ :=
  scanBest ((List.range palette.length).map
    (fun j => (j, sqDist rgb (palette.getD j (0, 0, 0)))))

/-- renderer.py line 139: `palette_idx`, the ANSI index of each custom
palette color. -/
def _make_remap_palette_idx (cd : ℕ → ℕ → ℕ → ℕ → ℚ) (palette_rgb : List RGB) : List ℕ :=
  palette_rgb.map (fun p => _rgb_to_256 cd p.1 p.2.1 p.2.2)

/-- renderer.py lines 132–154, `make_remap`.  The first `mapO` is line 141's
`palette_ansi_rgb` (computed, never used — but an out-of-range index there
would raise, so the embedding keeps it); the second is the loop over all
256 slots, `remap[i] = palette_idx[best]`. -/
def make_remap (cd : ℕ → ℕ → ℕ → ℕ → ℚ) (palette_rgb : List RGB) : Option (List ℕ) :=
  match mapO _idx_to_rgb (_make_remap_palette_idx cd palette_rgb) with
  | none => none
  | some _ =>
    mapO (fun i =>
        match _idx_to_rgb i with
        | none => none
        | some rgb => (_make_remap_palette_idx cd palette_rgb)[bestIndex rgb palette_rgb]?)
      (List.range 256)

/-- PIL pixel access `pixels[x, y]` on a decoded `w × h` image: out of
range raises (here: `none`). -/
def pixAt (w h : ℕ) (px : ℕ → ℕ → RGB) (x y : ℕ) : Option RGB :=
  if x < w ∧ y < h then some (px x y) else none

/-- renderer.py lines 111–129, `load_lut`: sample the center pixel of each
of the 256 swatches (`row, col = idx // 16, idx % 16`) of a decoded
swatch image and quantize it.  The decoded image is its width, height and
pixel accessor. -/
def load_lut (cd : ℕ → ℕ → ℕ → ℕ → ℚ) (w h : ℕ) (px : ℕ → ℕ → RGB) : Option (List ℕ) :=
  let swatch_w := w / 16
  let swatch_h := h / 16
  let cx := swatch_w / 2
  let cy := swatch_h / 2
  mapO (fun idx =>
      match pixAt w h px (idx % 16 * swatch_w + cx) (idx / 16 * swatch_h + cy) with
      | none => none
      | some p => some (_rgb_to_256 cd p.1 p.2.1 p.2.2))
    (List.range 256)

/-- renderer.py lines 157–161, `_apply_remap`: replace `idx_grid[y][x]` by
`remap[idx_grid[y][x]]` for `x` below `len(idx_grid[0])`; in-place mutation
keeps any longer row's tail unchanged. -/
def _apply_remap (idx_grid : List (List ℕ)) (remap : List ℕ) : Option (List (List ℕ)) :=
  let w := (idx_grid.headD []).length
  mapO (fun row =>
      match mapO (fun x =>
          match row[x]? with
          | none => none
          | some i => remap[i]?) (List.range w) with
      | none => none
      | some repl => some (repl ++ row.drop w))
    idx_grid

/-- The `make_remap` scan never leaves the palette list. -/
theorem bestIndex_lt (rgb : RGB) (palette : List RGB) (h : palette ≠ []) :
    bestIndex rgb palette < palette.length := by
  apply scanBest_lt _ (List.length_pos.mpr h)
  intro p hp
  rcases List.mem_map.mp hp with ⟨j, hj, rfl⟩
  exact List.mem_range.mp hj

/-- The center-sample coordinate of `load_lut` is always inside a nonempty
image: with `s = w / 16`, either `s = 0` (the sample is pixel 0) or
`c * s + s / 2 ≤ 15 s + s / 2 < 16 s ≤ w`. -/
theorem sample_lt {w c : ℕ} (hw : 1 ≤ w) (hc : c < 16) :
    c * (w / 16) + w / 16 / 2 < w := by
  rcases Nat.eq_zero_or_pos (w / 16) with h0 | hpos
  · rw [h0]; simpa using hw
  · have f2 : c * (w / 16) ≤ 15 * (w / 16) :=
      Nat.mul_le_mul_right (w / 16) (by omega)
    have f3 : w / 16 / 2 < w / 16 := Nat.div_lt_self hpos (by norm_num)
    have f4 : w / 16 * 16 ≤ w := Nat.div_mul_le_self w 16
    omega

/-- A successful positive list lookup yields a member. -/
theorem mem_of_getElem?_eq {α : Type} {l : List α} {i : ℕ} {a : α}
    (h : l[i]? = some a) : a ∈ l := by
  have hi : i < l.length := by
    by_contra hge
    rw [List.getElem?_eq_none (by omega)] at h
    exact Option.noConfusion h
  rw [List.getElem?_eq_getElem hi] at h
  rw [← Option.some.injEq] at h
  cases h
  exact List.getElem_mem hi

/-- Claim C3 (amended): palette colors are not all fixed points of the
quantization map.  Indices 59 (cube color `(95, 95, 95)`) and 240 (gray
`(88, 88, 88)`) fall into the same coarse LUT bucket `(11, 11, 11)`
(`95 // 8 = 88 // 8 = 11`), so `_rgb_to_256` returns one common value for
both, and whatever squared-Lab-distance values the float table holds, at
least one of the two is not a fixed point of `requantize`. -/
theorem ax_c3_bucket_collision (cd : ℕ → ℕ → ℕ → ℕ → ℚ) :
    requantize cd 59 ≠ some 59 ∨ requantize cd 240 ≠ some 240 := by
  have h59 : requantize cd 59 = some (_lab_nearest (cd 11 11 11)) := rfl
  have h240 : requantize cd 240 = some (_lab_nearest (cd 11 11 11)) := rfl
  by_cases hv : _lab_nearest (cd 11 11 11) = 59
  · right
    rw [h240]
    intro hcon
    rw [Option.some.injEq] at hcon
    omega
  · left
    rw [h59]
    intro hcon
    rw [Option.some.injEq] at hcon
    exact hv hcon

/-- Once the running best distance is a global minimum, the scan never
moves again. -/
theorem scanBest_foldl_const {δ : Type} [LinearOrder δ] (c : δ) (b : ℕ)
    (l : List (ℕ × δ)) (h : ∀ p ∈ l, ¬ p.2 < c) :
    l.foldl
      (fun acc p =>
        match acc.2 with
        | none => (p.1, some p.2)
        | some bd => if p.2 < bd then (p.1, some p.2) else acc)
      (b, some c) = (b, some c) := by
  induction l with
  | nil => rfl
  | cons p l ih =>
    have hp : ¬ p.2 < c := h p (List.mem_cons_self p l)
    simp only [List.foldl_cons, hp, if_false]
    exact ih (fun q hq => h q (List.mem_cons_of_mem p hq))

/-- With all distances equal, the scan keeps the first palette entry, so
`_lab_nearest` returns 16. -/
theorem lab_nearest_const0 : _lab_nearest (fun _ => (0 : ℚ)) = 16 := by
  unfold _lab_nearest scanBest
  have h240 : List.range _PAL_COUNT = 0 :: (List.range 239).map Nat.succ := by
    show List.range 240 = _
    rw [List.range_succ_eq_map]
  rw [h240]
  simp only [List.map_cons, List.foldl_cons]
  rw [scanBest_foldl_const (0 : ℚ) 0 _ (by
    intro p hp
    rcases List.mem_map.mp hp with ⟨i, _, rfl⟩
    simp)]

/-- At the representative table `cd0` every quantization returns 16. -/
theorem rgb_to_256_cd0 (r g b : ℕ) : _rgb_to_256 cd0 r g b = 16 :=
  lab_nearest_const0

/-- Claim C3, concrete counterexample: at the representative table `cd0`
neither 59 nor 240 requantizes to itself (both requantize to 16). -/
theorem ax_c3_counterexample :
    requantize cd0 59 ≠ some 59 ∧ requantize cd0 240 ≠ some 240 := by
  have h59 : requantize cd0 59 = some (_rgb_to_256 cd0 95 95 95) := rfl
  have h240 : requantize cd0 240 = some (_rgb_to_256 cd0 88 88 88) := rfl
  rw [h59, h240, rgb_to_256_cd0, rgb_to_256_cd0]
  constructor <;> simp

/-- Claim C8 (amended): `load_lut` performs no dimension validation and
cannot fail on a decoded nonempty image — a swatch image of the wrong size
is silently sampled (with degenerate swatch size `w // 16 = 0` every slot
samples near pixel `(0, 0)`) and a full 256-entry remap table is returned;
no `PaletteLoadError` exists anywhere in the code. -/
theorem ax_c8_load_lut_total (cd : ℕ → ℕ → ℕ → ℕ → ℚ) (w h : ℕ)
    (px : ℕ → ℕ → RGB) (hw : 1 ≤ w) (hh : 1 ≤ h) :
    load_lut cd w h px = some ((List.range 256).map (fun idx =>
      let p := px (idx % 16 * (w / 16) + w / 16 / 2) (idx / 16 * (h / 16) + h / 16 / 2)
      _rgb_to_256 cd p.1 p.2.1 p.2.2)) := by
  unfold load_lut
  apply mapO_eq_map
  intro idx hidx
  have hx : idx % 16 * (w / 16) + w / 16 / 2 < w :=
    sample_lt hw (Nat.mod_lt _ (by norm_num))
  have hy : idx / 16 * (h / 16) + h / 16 / 2 < h := by
    apply sample_lt hh
    have := List.mem_range.mp hidx
    omega
  simp [pixAt, hx, hy]

/-- Claim C8, witness: a 3×17 image (not a 16×16 swatch grid at all) is
loaded without any error. -/
theorem ax_c8_witness :
    load_lut cd0 3 17 px0 = some ((List.range 256).map (fun idx =>
      let p := px0 (idx % 16 * (3 / 16) + 3 / 16 / 2) (idx / 16 * (17 / 16) + 17 / 16 / 2)
      _rgb_to_256 cd0 p.1 p.2.1 p.2.2)) :=
  ax_c8_load_lut_total cd0 3 17 px0 (by norm_num) (by norm_num)

/-- Claim C8, concrete counterexample: a malformed 1×1 swatch image does
not fail — it produces a complete remap table (all 256 entries sampled
from the single pixel), contradicting the claimed `PaletteLoadError`. -/
theorem ax_c8_counterexample :
    load_lut cd0 1 1 px0 = some (List.replicate 256 16) := by
  have hmain : load_lut cd0 1 1 px0 = some ((List.range 256).map (fun _ => 16)) := by
    unfold load_lut
    apply mapO_eq_map
    intro idx hidx
    have hx : idx % 16 * (1 / 16) + 1 / 16 / 2 = 0 := by simp
    have hy : idx / 16 * (1 / 16) + 1 / 16 / 2 = 0 := by simp
    rw [hx, hy]
    simp [pixAt, px0, rgb_to_256_cd0]
  rw [hmain, Option.some.injEq, List.map_const']
  simp

/-- Claim C9: every entry of a remap table produced by `make_remap` or
`load_lut` lies in [16, 255] (each stored value is a `_rgb_to_256` result,
i.e. a `_lab_nearest` result offset by +16), so applying such a table to a
rectangular grid yields only cube or grayscale indices, never a reserved
index 0–15. -/
theorem ax_c9_remap_range (cd : ℕ → ℕ → ℕ → ℕ → ℚ) (palette : List RGB)
    (w h : ℕ) (px : ℕ → ℕ → RGB) (remap : List ℕ)
    (grid grid' : List (List ℕ))
    (hrect : ∀ row ∈ grid, row.length = (grid.headD []).length)
    (hsrc : make_remap cd palette = some remap ∨ load_lut cd w h px = some remap)
    (happ : _apply_remap grid remap = some grid') :
    (∀ v ∈ remap, 16 ≤ v ∧ v ≤ 255) ∧
    (∀ row ∈ grid', ∀ v ∈ row, 16 ≤ v ∧ v ≤ 255) := by
  have hrange : ∀ v ∈ remap, 16 ≤ v ∧ v ≤ 255 := by
    rcases hsrc with hmk | hld
    · unfold make_remap at hmk
      cases hdead : mapO _idx_to_rgb (_make_remap_palette_idx cd palette) with
      | none => rw [hdead] at hmk; exact absurd hmk (by simp)
      | some l1 =>
        rw [hdead] at hmk
        intro v hv
        obtain ⟨i, _, hfi⟩ := mapO_mem hmk v hv
        cases hidx : _idx_to_rgb i with
        | none => rw [hidx] at hfi; exact absurd hfi (by simp)
        | some rgb =>
          rw [hidx] at hfi
          have hvmem : v ∈ _make_remap_palette_idx cd palette := mem_of_getElem?_eq hfi
          unfold _make_remap_palette_idx at hvmem
          rcases List.mem_map.mp hvmem with ⟨p, _, rfl⟩
          exact rgb_to_256_range cd p.1 p.2.1 p.2.2
    · unfold load_lut at hld
      intro v hv
      obtain ⟨i, _, hfi⟩ := mapO_mem hld v hv
      revert hfi
      cases hpix : pixAt w h px (i % 16 * (w / 16) + w / 16 / 2) (i / 16 * (h / 16) + h / 16 / 2) with
      | none => intro hfi; exact absurd hfi (by simp)
      | some p =>
        intro hfi
        rw [Option.some.injEq] at hfi
        subst hfi
        exact rgb_to_256_range cd p.1 p.2.1 p.2.2
  refine ⟨hrange, ?_⟩
  intro row' hrow' v hv
  unfold _apply_remap at happ
  obtain ⟨row, hrowmem, hf⟩ := mapO_mem happ row' hrow'
  revert hf
  cases hinner : mapO (fun x =>
      match row[x]? with
      | none => none
      | some i => remap[i]?) (List.range (grid.headD []).length) with
  | none => intro hf; exact absurd hf (by simp)
  | some repl =>
    intro hf
    rw [Option.some.injEq] at hf
    have hwlen : row.length = (grid.headD []).length := hrect row hrowmem
    rw [List.drop_eq_nil_of_le (by omega), List.append_nil] at hf
    subst hf
    obtain ⟨x, _, hfx⟩ := mapO_mem hinner v hv
    revert hfx
    cases hrx : row[x]? with
    | none => intro hfx; exact absurd hfx (by simp)
    | some i =>
      intro hfx
      exact hrange v (mem_of_getElem?_eq hfx)

/-- At the representative table `cd0`, remapping to the single-color
palette `[(0,0,0)]` yields the constant table 16. -/
theorem make_remap_cd0 : make_remap cd0 [(0, 0, 0)] = some (List.replicate 256 16) := by
  unfold make_remap
  have hpi : _make_remap_palette_idx cd0 [(0, 0, 0)] = [16] := by
    unfold _make_remap_palette_idx
    simp [rgb_to_256_cd0]
  rw [hpi]
  have hdead : mapO _idx_to_rgb [16] = some [(0, 0, 0)] := by decide
  rw [hdead]
  have hmain : mapO (fun i =>
      match _idx_to_rgb i with
      | none => none
      | some rgb => [16][bestIndex rgb [(0, 0, 0)]]?) (List.range 256) =
      some ((List.range 256).map (fun _ => 16)) := by
    apply mapO_eq_map
    intro i hi
    obtain ⟨rgb, hrgb⟩ := Option.isSome_iff_exists.mp (idx_to_rgb_isSome (List.mem_range.mp hi))
    simp only [hrgb]
    have hlt : bestIndex rgb [(0, 0, 0)] < 1 := by
      simpa using bestIndex_lt rgb [(0, 0, 0)] (by simp)
    have h0 : bestIndex rgb [(0, 0, 0)] = 0 := by omega
    rw [h0]
    rfl
  rw [hmain, Option.some.injEq, List.map_const']
  simp

set_option maxRecDepth 4096 in
/-- Claim C9, witness: the table built by `make_remap` at the concrete
palette `[(0,0,0)]`, applied to the grid `[[20]]`, keeps every index in
the valid range (entry 16 of the constant table). -/
theorem ax_c9_witness : 16 ≤ 16 ∧ 16 ≤ 255 :=
  (ax_c9_remap_range cd0 [(0, 0, 0)] 0 0 px0 (List.replicate 256 16) [[20]] [[16]]
    (by decide) (Or.inl make_remap_cd0) (by decide)).1 16
    (List.mem_replicate.mpr ⟨by norm_num, rfl⟩)

/-- Claim C10: `_idx_to_rgb` is total on all indices 0–255, returning
color-cube triples through Python negative list indexing for the reserved
indices 0–15 (index 0 yields `(255, 175, 135)`), and `make_remap` — which
invokes it on all 256 indices including the reserved ones — never fails on
a nonempty palette. -/
theorem ax_c10_idx_to_rgb_total :
    (∀ k : Fin 256, (_idx_to_rgb k.1).isSome = true) ∧
    _idx_to_rgb 0 = some (255, 175, 135) ∧
    (∀ cd : ℕ → ℕ → ℕ → ℕ → ℚ, ∀ palette : List RGB, palette ≠ [] →
      (make_remap cd palette).isSome = true) := by
  refine ⟨fun k => idx_to_rgb_isSome k.2, by decide, ?_⟩
  intro cd palette hpal
  unfold make_remap
  have hdead : (mapO _idx_to_rgb (_make_remap_palette_idx cd palette)).isSome = true := by
    apply mapO_isSome
    intro a ha
    unfold _make_remap_palette_idx at ha
    rcases List.mem_map.mp ha with ⟨p, _, rfl⟩
    have h2 := (rgb_to_256_range cd p.1 p.2.1 p.2.2).2
    exact idx_to_rgb_isSome (by omega)
  obtain ⟨l1, hl1⟩ := Option.isSome_iff_exists.mp hdead
  rw [hl1]
  apply mapO_isSome
  intro i hi
  obtain ⟨rgb, hrgb⟩ := Option.isSome_iff_exists.mp (idx_to_rgb_isSome (List.mem_range.mp hi))
  simp only [hrgb]
  have hlt : bestIndex rgb palette < (_make_remap_palette_idx cd palette).length := by
    have := bestIndex_lt rgb palette hpal
    simpa [_make_remap_palette_idx] using this
  rw [List.getElem?_eq_getElem hlt]
  rfl

/-- renderer.py lines 173–187, `_posterize`, one channel:
`factor = 256 // levels` then `(c // factor) * factor + factor // 2`.
`levels = 0` raises `ZeroDivisionError` at the factor computation and a
zero factor (levels > 256) raises at the channel division: both `none`. -/
def posterize_channel (levels c : ℕ) : Option ℕ :=
  let factor := 256 / levels
  if factor = 0 then none else some (c / factor * factor + factor / 2)

/-- `_posterize` on one RGB pixel. -/
def posterize_px (levels : ℕ) (p : RGB) : Option RGB :=
  match posterize_channel levels p.1, posterize_channel levels p.2.1,
        posterize_channel levels p.2.2 with
  | some r, some g, some b => some (r, g, b)
  | _, _, _ => none

/-- renderer.py lines 173–188, `_posterize` over the whole raster. -/
def _posterize (img : List (List RGB)) (levels : ℕ) : Option (List (List RGB)) :=
  mapO (fun row => mapO (posterize_px levels) row) img

/-- renderer.py lines 199–200 of `_build_idx_grid`: posterize only when
`poster > 0`; any other level (0 or negative) leaves the raster alone. -/
def poster_stage (poster : ℤ) (img : List (List RGB)) : Option (List (List RGB)) :=
  if 0 < poster then _posterize img poster.toNat else some img

/-- renderer.py lines 165–170: the Bayer 4×4 threshold matrix normalized
to [-1/2, 1/2), exact rationals. -/
def _BAYER_4x4 : List (List ℚ) :=
  [[0/16 - 1/2, 8/16 - 1/2, 2/16 - 1/2, 10/16 - 1/2],
   [12/16 - 1/2, 4/16 - 1/2, 14/16 - 1/2, 6/16 - 1/2],
   [3/16 - 1/2, 11/16 - 1/2, 1/16 - 1/2, 9/16 - 1/2],
   [15/16 - 1/2, 7/16 - 1/2, 13/16 - 1/2, 5/16 - 1/2]]

/-- PIL pixel access `pixels[x, y]` inside `_build_idx_grid`: decoded PIL
rasters are rectangular, so the default of this total accessor is
unreachable at every call site. -/
def pixAtD (img : List (List RGB)) (x y : ℕ) : RGB :=
  (img.getD y []).getD x (0, 0, 0)

/-- renderer.py lines 251–255, the `"none"` branch: quantize each pixel
directly. -/
def plain_grid (cd : ℕ → ℕ → ℕ → ℕ → ℚ) (w h : ℕ) (img : List (List RGB)) :
    List (List ℕ) :=
  (List.range h).map (fun y => (List.range w).map (fun x =>
    let p := pixAtD img x y
    _rgb_to_256 cd p.1 p.2.1 p.2.2))

/-- renderer.py lines 239–249, the `"ordered"` branch: add the Bayer
offset (`spread = 32`), round, clamp, quantize. -/
def ordered_grid (cd : ℕ → ℕ → ℕ → ℕ → ℚ) (w h : ℕ) (img : List (List RGB)) :
    List (List ℕ) :=
  (List.range h).map (fun y => (List.range w).map (fun x =>
    let p := pixAtD img x y
    let offset := ((_BAYER_4x4.getD (y % 4) []).getD (x % 4) 0) * 32
    _rgb_to_256 cd (pyClamp (pyRound ((p.1 : ℚ) + offset)))
      (pyClamp (pyRound ((p.2.1 : ℚ) + offset)))
      (pyClamp (pyRound ((p.2.2 : ℚ) + offset)))))

/-- The error-diffusion state: the float buffer `buf` and the index grid,
both in-place 2-D arrays of the source. -/
structure FloydSt where
  buf : ℕ → ℕ → Q3
  grid : ℕ → ℕ → ℕ

/-- One neighbor update `buf[·][·] = (t0 + e0 * k, t1 + e1 * k, t2 + e2 * k)`
of the Floyd–Steinberg loop, weight `k ∈ {7/16, 3/16, 5/16, 1/16}`. -/
def errAdd (t : Q3) (e : Q3) (k : ℚ) : Q3 :=
  (t.1 + e.1 * k, t.2.1 + e.2.1 * k, t.2.2 + e.2.2 * k)

/-- One guarded in-place neighbor update
`buf[ty][tx] = buf[ty][tx] + e * k` of the diffusion. -/
def updIf (c : Prop) [Decidable c] (ty tx : ℕ) (e : Q3) (k : ℚ)
    (buf : ℕ → ℕ → Q3) : ℕ → ℕ → Q3 :=
  if c then upd buf ty tx (errAdd (buf ty tx) e k) else buf

/-- renderer.py lines 222–237: distribute the residual `e` of pixel
`(y, x)` to the four forward neighbors, guarded exactly as the source
(`x+1 < w`; `y+1 < h` with `x-1 >= 0` for below-left), as sequential
in-place updates of the shared buffer. -/
def diffuse (w h y x : ℕ) (e : Q3) (buf : ℕ → ℕ → Q3) : ℕ → ℕ → Q3 :=
  updIf (y + 1 < h ∧ x + 1 < w) (y + 1) (x + 1) e (1/16)
    (updIf (y + 1 < h) (y + 1) x e (5/16)
      (updIf (y + 1 < h ∧ 0 < x) (y + 1) (x - 1) e (3/16)
        (updIf (x + 1 < w) y (x + 1) e (7/16) buf)))

/-- renderer.py lines 213–237, one iteration of the Floyd–Steinberg loop
body: read the accumulated color, clamp each rounded channel to [0, 255],
quantize, store the index, and diffuse the residual (accumulated color
minus the chosen palette color's RGB). -/
def floydStep (cd : ℕ → ℕ → ℕ → ℕ → ℚ) (w h y x : ℕ) (st : FloydSt) : Option FloydSt :=
  let v := st.buf y x
  let idx := _rgb_to_256 cd (pyClamp (pyRound v.1)) (pyClamp (pyRound v.2.1))
    (pyClamp (pyRound v.2.2))
  match _idx_to_rgb idx with
  | none => none
  | some p =>
    some { buf := diffuse w h y x
            (v.1 - (p.1 : ℚ), v.2.1 - (p.2.1 : ℚ), v.2.2 - (p.2.2 : ℚ)) st.buf,
           grid := upd st.grid y x idx }

/-- renderer.py lines 204–237, the `"floyd"` branch: float copy of the
raster, then the step for every pixel in raster order (row-major,
left-to-right), then the finished grid. -/
def floyd_grid (cd : ℕ → ℕ → ℕ → ℕ → ℚ) (w h : ℕ) (img : List (List RGB)) :
    Option (List (List ℕ)) :=
  let st0 : FloydSt :=
    { buf := fun y x =>
        (((pixAtD img x y).1 : ℚ), ((pixAtD img x y).2.1 : ℚ), ((pixAtD img x y).2.2 : ℚ)),
      grid := fun _ _ => 0 }
  match foldO (fun st y => foldO (fun st' x => floydStep cd w h y x st') st (List.range w))
      st0 (List.range h) with
  | none => none
  | some stF => some ((List.range h).map (fun y => (List.range w).map (fun x => stF.grid y x)))

/-- Python truthiness of the `remap` argument at line 257: `None` and the
empty list are falsy. -/
def remap_truthy : Option (List ℕ) → Bool
  | none => false
  | some l => !l.isEmpty

/-- renderer.py lines 191–259, `_build_idx_grid`: optional posterize, then
the dither dispatch — `"floyd"`, `"ordered"`, and **everything else** the
`"none"` branch — then the optional remap. -/
def _build_idx_grid (cd : ℕ → ℕ → ℕ → ℕ → ℚ) (dither : String)
    (remap : Option (List ℕ)) (poster : ℤ) (img : List (List RGB)) :
    Option (List (List ℕ)) :=
  match poster_stage poster img with
  | none => none
  | some img' =>
    let w := (img'.headD []).length
    let h := img'.length
    match (if dither = "floyd" then floyd_grid cd w h img'
           else if dither = "ordered" then some (ordered_grid cd w h img')
           else some (plain_grid cd w h img')) with
    | none => none
    | some grid =>
      if remap_truthy remap then _apply_remap grid (remap.getD []) else some grid

/-- Claim C2 (amended): there is no parameter validation and no
`ConfigurationError` anywhere in the code — a dither mode outside the
recognized set is silently handled by the `"none"` branch, a non-positive
posterization level merely disables posterization, and a complete index
grid is produced. -/
theorem ax_c2_invalid_params_fall_through (cd : ℕ → ℕ → ℕ → ℕ → ℚ)
    (dither : String) (poster : ℤ) (img : List (List RGB))
    (hd : dither ∉ (["floyd", "ordered"] : List String)) (hp : poster ≤ 0) :
    _build_idx_grid cd dither none poster img =
      some (plain_grid cd (img.headD []).length img.length img) := by
  have hd1 : dither ≠ "floyd" := by intro h; exact hd (by simp [h])
  have hd2 : dither ≠ "ordered" := by intro h; exact hd (by simp [h])
  unfold _build_idx_grid poster_stage
  rw [if_neg (by omega : ¬ (0 : ℤ) < poster)]
  simp [hd1, hd2, remap_truthy]

/-- Claim C2, witness: an unrecognized mode `"x"` with posterization level
−1 still produces the full quantized grid. -/
theorem ax_c2_witness :
    _build_idx_grid cd0 "x" none (-1) [[(0, 0, 0)]] =
      some (plain_grid cd0 1 1 [[(0, 0, 0)]]) :=
  ax_c2_invalid_params_fall_through cd0 "x" (-1) [[(0, 0, 0)]] (by decide) (by norm_num)

/-- Claim C2, concrete counterexample: the invalid invocation (mode
`"bogus"`, posterization level −3) does not fail — it produces the
complete index grid `[[16]]`, with no `ConfigurationError` raised. -/
theorem ax_c2_counterexample :
    _build_idx_grid cd0 "bogus" none (-3) [[(0, 0, 0)]] = some [[16]] ∧
    ("bogus" : String) ∉ (["none", "floyd", "ordered"] : List String) := by
  constructor
  · unfold _build_idx_grid poster_stage plain_grid
    simp [remap_truthy, pixAtD, rgb_to_256_cd0]
  · decide

/-- Claim C5: posterization with 256 levels is the identity on every
channel and raster, a non-positive level skips posterization entirely
(identity on the raster), and for `0 < levels ≤ 256` each channel becomes
`(c // binWidth) * binWidth + binWidth // 2` with `binWidth = 256 // levels`. -/
theorem ax_c5_posterize :
    (∀ c : ℕ, posterize_channel 256 c = some c) ∧
    (∀ img : List (List RGB), _posterize img 256 = some img) ∧
    (∀ img : List (List RGB), ∀ poster : ℤ, poster ≤ 0 → poster_stage poster img = some img) ∧
    (∀ levels c : ℕ, 0 < levels → levels ≤ 256 →
      posterize_channel levels c =
        some (c / (256 / levels) * (256 / levels) + 256 / levels / 2)) := by
  have h1 : ∀ c : ℕ, posterize_channel 256 c = some c := by
    intro c
    unfold posterize_channel
    norm_num
  refine ⟨h1, ?_, ?_, ?_⟩
  · intro img
    unfold _posterize
    have himg : mapO (fun row => mapO (posterize_px 256) row) img = some (img.map id) := by
      apply mapO_eq_map
      intro row _
      have hrow : mapO (posterize_px 256) row = some (row.map id) := by
        apply mapO_eq_map
        intro p _
        unfold posterize_px
        rw [h1 p.1, h1 p.2.1, h1 p.2.2]
        rfl
      rw [hrow, List.map_id]
      rfl
    rw [himg, List.map_id]
  · intro img poster hp
    unfold poster_stage
    rw [if_neg (by omega : ¬ (0 : ℤ) < poster)]
  · intro levels c hpos hle
    unfold posterize_channel
    rw [if_neg (by have := Nat.div_pos hle hpos; omega)]

theorem upd_same {α : Type} (f : ℕ → ℕ → α) (y x : ℕ) (v : α) :
    upd f y x v y x = v := by simp [upd]

theorem upd_other {α : Type} (f : ℕ → ℕ → α) (y x : ℕ) (v : α) {y' x' : ℕ}
    (h : ¬(y' = y ∧ x' = x)) : upd f y x v y' x' = f y' x' := by
  simp only [upd]
  rw [if_neg h]

theorem updIf_at {c : Prop} [Decidable c] (hc : c) (ty tx : ℕ) (e : Q3) (k : ℚ)
    (buf : ℕ → ℕ → Q3) : updIf c ty tx e k buf ty tx = errAdd (buf ty tx) e k := by
  unfold updIf
  rw [if_pos hc, upd_same]

theorem updIf_not {c : Prop} [Decidable c] (hc : ¬c) (ty tx : ℕ) (e : Q3) (k : ℚ)
    (buf : ℕ → ℕ → Q3) : updIf c ty tx e k buf = buf := by
  unfold updIf
  rw [if_neg hc]

theorem updIf_other {c : Prop} [Decidable c] (ty tx : ℕ) (e : Q3) (k : ℚ)
    (buf : ℕ → ℕ → Q3) {y' x' : ℕ} (h : ¬(y' = ty ∧ x' = tx)) :
    updIf c ty tx e k buf y' x' = buf y' x' := by
  unfold updIf
  split
  · exact upd_other _ _ _ _ h
  · rfl

/-- The 7/16 share goes to the pixel immediately to the right. -/
theorem diffuse_right {w h y x : ℕ} (e : Q3) (buf : ℕ → ℕ → Q3) (h7 : x + 1 < w) :
    diffuse w h y x e buf y (x + 1) = errAdd (buf y (x + 1)) e (7/16) := by
  unfold diffuse
  rw [updIf_other _ _ _ _ _ (by omega), updIf_other _ _ _ _ _ (by omega),
    updIf_other _ _ _ _ _ (by omega), updIf_at h7]

/-- The 3/16 share goes to the pixel below-left. -/
theorem diffuse_below_left {w h y x : ℕ} (e : Q3) (buf : ℕ → ℕ → Q3)
    (hh : y + 1 < h) (hx : 0 < x) :
    diffuse w h y x e buf (y + 1) (x - 1) = errAdd (buf (y + 1) (x - 1)) e (3/16) := by
  unfold diffuse
  rw [updIf_other _ _ _ _ _ (by omega), updIf_other _ _ _ _ _ (by omega),
    updIf_at ⟨hh, hx⟩, updIf_other _ _ _ _ _ (by omega)]

/-- The 5/16 share goes to the pixel directly below. -/
theorem diffuse_below {w h y x : ℕ} (e : Q3) (buf : ℕ → ℕ → Q3) (hh : y + 1 < h) :
    diffuse w h y x e buf (y + 1) x = errAdd (buf (y + 1) x) e (5/16) := by
  unfold diffuse
  rw [updIf_other _ _ _ _ _ (by omega), updIf_at hh]
  by_cases hx : 0 < x
  · rw [updIf_other _ _ _ _ _ (by omega), updIf_other _ _ _ _ _ (by omega)]
  · rw [updIf_not (by omega), updIf_other _ _ _ _ _ (by omega)]

/-- The 1/16 share goes to the pixel below-right. -/
theorem diffuse_below_right {w h y x : ℕ} (e : Q3) (buf : ℕ → ℕ → Q3)
    (hh : y + 1 < h) (h7 : x + 1 < w) :
    diffuse w h y x e buf (y + 1) (x + 1) = errAdd (buf (y + 1) (x + 1)) e (1/16) := by
  unfold diffuse
  rw [updIf_at ⟨hh, h7⟩, updIf_other _ _ _ _ _ (by omega)]
  by_cases hx : 0 < x
  · rw [updIf_other _ _ _ _ _ (by omega), updIf_other _ _ _ _ _ (by omega)]
  · rw [updIf_not (by omega), updIf_other _ _ _ _ _ (by omega)]

/-- A share that would fall off the right edge is dropped: when
`x + 1 ≥ w` no cell of column `x + 1` changes (no wraparound, no
compensation). -/
theorem diffuse_right_skip {w h y x : ℕ} (e : Q3) (buf : ℕ → ℕ → Q3)
    (h7 : ¬ x + 1 < w) (y' : ℕ) :
    diffuse w h y x e buf y' (x + 1) = buf y' (x + 1) := by
  unfold diffuse
  rw [updIf_not (by omega), updIf_other _ _ _ _ _ (by omega),
    updIf_other _ _ _ _ _ (by omega), updIf_not (by omega)]

/-- Shares that would fall below the last row are dropped: when
`y + 1 ≥ h` row `y + 1` never changes. -/
theorem diffuse_below_skip {w h y x : ℕ} (e : Q3) (buf : ℕ → ℕ → Q3)
    (hh : ¬ y + 1 < h) (x' : ℕ) :
    diffuse w h y x e buf (y + 1) x' = buf (y + 1) x' := by
  unfold diffuse
  rw [updIf_not (by omega), updIf_not (by omega), updIf_not (by omega),
    updIf_other _ _ _ _ _ (by omega)]

/-- Cells other than the four diffusion targets never change. -/
theorem diffuse_frame {w h y x : ℕ} (e : Q3) (buf : ℕ → ℕ → Q3) {y' x' : ℕ}
    (h1 : (y', x') ≠ (y, x + 1)) (h2 : (y', x') ≠ (y + 1, x - 1))
    (h3 : (y', x') ≠ (y + 1, x)) (h4 : (y', x') ≠ (y + 1, x + 1)) :
    diffuse w h y x e buf y' x' = buf y' x' := by
  have p1 : ¬(y' = y ∧ x' = x + 1) := fun ⟨a, b⟩ => h1 (by rw [a, b])
  have p2 : ¬(y' = y + 1 ∧ x' = x - 1) := fun ⟨a, b⟩ => h2 (by rw [a, b])
  have p3 : ¬(y' = y + 1 ∧ x' = x) := fun ⟨a, b⟩ => h3 (by rw [a, b])
  have p4 : ¬(y' = y + 1 ∧ x' = x + 1) := fun ⟨a, b⟩ => h4 (by rw [a, b])
  unfold diffuse
  rw [updIf_other _ _ _ _ _ p4, updIf_other _ _ _ _ _ p3,
    updIf_other _ _ _ _ _ p2, updIf_other _ _ _ _ _ p1]

/-- Claim C4: in error-diffusion (floyd) mode each pixel step quantizes the
accumulated color with every rounded channel clamped to [0, 255] before the
lookup, stores the index, and distributes the residual (accumulated color
minus the chosen palette color's RGB) with weight 7/16 to the right
neighbor, 3/16 below-left, 5/16 below, 1/16 below-right; shares falling
outside the raster are dropped (no wraparound, no compensation), and
nothing else changes.  `floyd_grid` runs exactly this step in raster
order. -/
theorem ax_c4_floyd_step (cd : ℕ → ℕ → ℕ → ℕ → ℚ) (w h y x : ℕ) (st : FloydSt) :
    ∃ st', floydStep cd w h y x st = some st' ∧
      (let v := st.buf y x
       let idx := _rgb_to_256 cd (pyClamp (pyRound v.1)) (pyClamp (pyRound v.2.1))
         (pyClamp (pyRound v.2.2))
       let p := (_idx_to_rgb idx).getD (0, 0, 0)
       let e : Q3 := (v.1 - (p.1 : ℚ), v.2.1 - (p.2.1 : ℚ), v.2.2 - (p.2.2 : ℚ))
       st'.grid y x = idx ∧
       (∀ y' x', ¬(y' = y ∧ x' = x) → st'.grid y' x' = st.grid y' x') ∧
       (x + 1 < w → st'.buf y (x + 1) = errAdd (st.buf y (x + 1)) e (7/16)) ∧
       (y + 1 < h → 0 < x →
         st'.buf (y + 1) (x - 1) = errAdd (st.buf (y + 1) (x - 1)) e (3/16)) ∧
       (y + 1 < h → st'.buf (y + 1) x = errAdd (st.buf (y + 1) x) e (5/16)) ∧
       (y + 1 < h → x + 1 < w →
         st'.buf (y + 1) (x + 1) = errAdd (st.buf (y + 1) (x + 1)) e (1/16)) ∧
       (¬ x + 1 < w → ∀ y', st'.buf y' (x + 1) = st.buf y' (x + 1)) ∧
       (¬ y + 1 < h → ∀ x', st'.buf (y + 1) x' = st.buf (y + 1) x') ∧
       (∀ y' x', (y', x') ≠ (y, x + 1) → (y', x') ≠ (y + 1, x - 1) →
         (y', x') ≠ (y + 1, x) → (y', x') ≠ (y + 1, x + 1) →
         st'.buf y' x' = st.buf y' x')) := by
  have hlt : _rgb_to_256 cd (pyClamp (pyRound (st.buf y x).1))
      (pyClamp (pyRound (st.buf y x).2.1)) (pyClamp (pyRound (st.buf y x).2.2)) < 256 := by
    have := (rgb_to_256_range cd (pyClamp (pyRound (st.buf y x).1))
      (pyClamp (pyRound (st.buf y x).2.1)) (pyClamp (pyRound (st.buf y x).2.2))).2
    omega
  obtain ⟨p₀, hp₀⟩ := Option.isSome_iff_exists.mp (idx_to_rgb_isSome hlt)
  refine ⟨FloydSt.mk
      (diffuse w h y x
        ((st.buf y x).1 - (p₀.1 : ℚ), (st.buf y x).2.1 - (p₀.2.1 : ℚ),
          (st.buf y x).2.2 - (p₀.2.2 : ℚ)) st.buf)
      (upd st.grid y x (_rgb_to_256 cd (pyClamp (pyRound (st.buf y x).1))
        (pyClamp (pyRound (st.buf y x).2.1)) (pyClamp (pyRound (st.buf y x).2.2)))), ?_, ?_⟩
  · unfold floydStep
    simp only [hp₀]
  · simp only [hp₀, Option.getD_some]
    refine ⟨upd_same _ _ _ _, fun y' x' hne => upd_other _ _ _ _ hne,
      fun h7 => diffuse_right _ _ h7,
      fun hh hx => diffuse_below_left _ _ hh hx,
      fun hh => diffuse_below _ _ hh,
      fun hh h7 => diffuse_below_right _ _ hh h7,
      fun h7 y' => diffuse_right_skip _ _ h7 y',
      fun hh x' => diffuse_below_skip _ _ hh x',
      fun y' x' h1 h2 h3 h4 => diffuse_frame _ _ h1 h2 h3 h4⟩

/-- `l.getD i d` is the element when `i` is in range. -/
theorem getD_of_lt {α : Type} (l : List α) (i : ℕ) (d : α) (h : i < l.length) :
    l.getD i d = l[i] := by
  rw [List.getD_eq_getElem?_getD, List.getElem?_eq_getElem h]
  rfl

/-- renderer.py lines 295–298, the inner loop of one output line:
`fg = idx_grid[y][x]; bg = idx_grid[y + 1][x]` — escape strings carry the
pair, the glyph is the visible character; an out-of-range row access
raises `IndexError`. -/
def half_block_line (grid : List (List ℕ)) (y w : ℕ) : Option (List (ℕ × ℕ)) :=
  mapO (fun x =>
    match grid[y]? with
    | none => none
    | some rowT =>
      match rowT[x]? with
      | none => none
      | some fg =>
        match grid[y + 1]? with
        | none => none
        | some rowB =>
          match rowB[x]? with
          | none => none
          | some bg => some (fg, bg)) (List.range w)

/-- renderer.py lines 291–301, the compositor's row pairing:
`for y in range(0, rows, 2)` over the grid's rows, one output line per
pair. -/
def compose_body (grid : List (List ℕ)) (w : ℕ) : Option (List (List (ℕ × ℕ))) :=
  mapO (fun y => half_block_line grid y w) (pyRange2 grid.length)

/-- Modelled from the spec's words (§4.6, the refinement target): "pairs
consecutive rows (row 2k as foreground, row 2k+1 as background per output
line)". -/
def compose_spec (grid : List (List ℕ)) (w : ℕ) : List (List (ℕ × ℕ)) :=
  (List.range (grid.length / 2)).map (fun k =>
    (List.range w).map (fun x =>
      ((grid.getD (2 * k) []).getD x 0, (grid.getD (2 * k + 1) []).getD x 0)))

/-- For an even bound, `range(0, n, 2)` has exactly `n / 2` entries. -/
theorem pyRange2_even (n : ℕ) (he : n % 2 = 0) :
    pyRange2 n = (List.range (n / 2)).map (fun k => 2 * k) := by
  unfold pyRange2
  congr 2
  omega

/-- Claim C6 (amended): on an even-height rectangular grid the compositor
pairs row 2k as foreground and row 2k+1 as background of output line k
(`compose_body` refines `compose_spec`).  Odd heights are not supported:
see the counterexample — the final row's background access goes out of
bounds instead of emitting a foreground-only glyph. -/
theorem ax_c6_compose_pairs (grid : List (List ℕ)) (w : ℕ)
    (hw : ∀ row ∈ grid, row.length = w) (he : grid.length % 2 = 0) :
    compose_body grid w = some (compose_spec grid w) := by
  unfold compose_body compose_spec
  rw [pyRange2_even grid.length he, mapO_map]
  apply mapO_eq_map
  intro k hk
  have hk' : k < grid.length / 2 := List.mem_range.mp hk
  have h2k : 2 * k < grid.length := by omega
  have h2k1 : 2 * k + 1 < grid.length := by omega
  unfold half_block_line
  apply mapO_eq_map
  intro x hx
  have hT : grid[2 * k]? = some (grid.getD (2 * k) []) := by
    rw [List.getElem?_eq_getElem h2k, getD_of_lt _ _ _ h2k]
  have hB : grid[2 * k + 1]? = some (grid.getD (2 * k + 1) []) := by
    rw [List.getElem?_eq_getElem h2k1, getD_of_lt _ _ _ h2k1]
  have hlenT : (grid.getD (2 * k) []).length = w := by
    rw [getD_of_lt _ _ _ h2k]
    exact hw _ (List.getElem_mem h2k)
  have hlenB : (grid.getD (2 * k + 1) []).length = w := by
    rw [getD_of_lt _ _ _ h2k1]
    exact hw _ (List.getElem_mem h2k1)
  have hxw : x < w := List.mem_range.mp hx
  have hTx : (grid.getD (2 * k) [])[x]? = some ((grid.getD (2 * k) []).getD x 0) := by
    rw [List.getElem?_eq_getElem (by omega)]
    exact congrArg some (getD_of_lt _ _ _ (by omega)).symm
  have hBx : (grid.getD (2 * k + 1) [])[x]? =
      some ((grid.getD (2 * k + 1) []).getD x 0) := by
    rw [List.getElem?_eq_getElem (by omega)]
    exact congrArg some (getD_of_lt _ _ _ (by omega)).symm
  simp only [hT, hTx, hB, hBx]

/-- Claim C6, witness: a 2×1 grid composes into the one spec-paired line. -/
theorem ax_c6_witness :
    compose_body [[7], [9]] 1 = some (compose_spec [[7], [9]] 1) :=
  ax_c6_compose_pairs [[7], [9]] 1 (by decide) (by decide)

/-- Claim C6, concrete counterexample: on the odd-height grid `[[16]]` the
compositor fails (the background access `idx_grid[1]` is out of bounds);
no foreground-only line is emitted. -/
theorem ax_c6_counterexample : compose_body [[16]] 1 = none := by decide

/-- renderer.py line 262: the default half-block glyph `"▀"`. -/
def glyph0 : Char := '▀'

/-- `" " * n` for a natural count (border and padding runs). -/
def spacesN (n : ℕ) : List Char := List.replicate n ' '

/-- Python `" " * k` for a possibly negative count: empty when `k < 0`. -/
def spacesZ (k : ℤ) : List Char := List.replicate k.toNat ' '

/-- Python slice `s[:k]`: a negative stop counts from the end. -/
def pySliceTo (s : List Char) (k : ℤ) : List Char :=
  if 0 ≤ k then s.take k.toNat else s.take ((s.length : ℤ) + k).toNat

/-- Python `text.split("\n")` on a character list. -/
def pySplit : List Char → List (List Char)
  | [] => [[]]
  | c :: rest =>
    let r := pySplit rest
    if c = '\n' then [] :: r else (c :: r.headD []) :: r.tail

/-- Python `"\n".join(lines)` (renderer.py line 317). -/
def pyJoin : List (List Char) → List Char
  | [] => []
  | l :: ls =>
    l ++ (match ls with
      | [] => []
      | _ :: _ => '\n' :: pyJoin ls)

/-- renderer.py lines 303–315, the caption band (visible characters; the
color escapes around them have zero display width): a blank border line,
the centered truncated caption line, and a closing blank line. -/
def caption_band (columns : ℤ) (pad : ℕ) (caption : List Char) : List (List Char) :=
  let text := pySliceTo caption (columns - 2 * pad)
  let padding : ℤ := columns - 2 * pad - text.length
  let left := Int.fdiv padding 2
  let right := padding - left
  [spacesZ columns,
   spacesN pad ++ spacesZ left ++ text ++ spacesZ right ++ spacesN pad,
   spacesZ columns]

/-- renderer.py lines 262–317, `render_image` after the grid is built: the
emitted lines as visible characters (ANSI escape sequences, which the
claim discounts, are omitted; each image cell contributes exactly its
glyph).  `pad = 1` and a top border line appear when `border` is set;
without a caption the bottom band is 4 blank border lines. -/
def render_image_lines (grid : List (List ℕ)) (columns : ℕ) (border : Bool)
    (caption : List Char) : Option (List (List Char)) :=
  let pad : ℕ := if border then 1 else 0
  let inner := ((columns : ℤ) - 2 * pad).toNat
  match mapO (fun y =>
      match half_block_line grid y inner with
      | none => none
      | some pr => some (spacesN pad ++ pr.map (fun _ => glyph0) ++ spacesN pad))
    (pyRange2 grid.length) with
  | none => none
  | some body =>
    some ((if border then [spacesN columns] else []) ++ body ++
      (if border then
        (if caption ≠ [] then caption_band (columns : ℤ) pad caption
         else [spacesN columns, spacesN columns, spacesN columns, spacesN columns])
       else []))

/-- The lines of the returned text: `"\n".join(lines)` re-split at
newlines, exactly what a terminal receives line by line. -/
def text_out (grid : List (List ℕ)) (columns : ℕ) (border : Bool)
    (caption : List Char) : Option (List (List Char)) :=
  match render_image_lines grid columns border caption with
  | none => none
  | some ls => some (pySplit (pyJoin ls))

theorem pySplit_ne_nil (l : List Char) : pySplit l ≠ [] := by
  induction l with
  | nil => simp [pySplit]
  | cons c rest ih =>
    simp only [pySplit]
    split <;> simp

theorem pySplit_no_nl {l : List Char} (h : '\n' ∉ l) : pySplit l = [l] := by
  induction l with
  | nil => rfl
  | cons c rest ih =>
    have hc : ¬ c = '\n' := by
      intro e
      exact h (e ▸ List.mem_cons_self c rest)
    have hr : pySplit rest = [rest] := ih (fun hm => h (List.mem_cons_of_mem c hm))
    simp [pySplit, hc, hr]

theorem pySplit_append_nl (a b : List Char) (ha : '\n' ∉ a) :
    pySplit (a ++ '\n' :: b) = a :: pySplit b := by
  induction a with
  | nil => simp [pySplit]
  | cons c a' ih =>
    have hc : ¬ c = '\n' := by
      intro e
      exact ha (e ▸ List.mem_cons_self _ _)
    have ih' := ih (fun hm => ha (List.mem_cons_of_mem c hm))
    simp [pySplit, hc, ih']

/-- Joining newline-free lines and re-splitting returns the lines. -/
theorem pySplit_pyJoin {ls : List (List Char)} (hne : ls ≠ [])
    (h : ∀ l ∈ ls, '\n' ∉ l) : pySplit (pyJoin ls) = ls := by
  induction ls with
  | nil => exact absurd rfl hne
  | cons l ls ih =>
    cases ls with
    | nil =>
      show pySplit (l ++ []) = [l]
      rw [List.append_nil, pySplit_no_nl (h l (List.mem_cons_self _ _))]
    | cons l2 ls2 =>
      have hjoin : pyJoin (l :: l2 :: ls2) = l ++ '\n' :: pyJoin (l2 :: ls2) := rfl
      rw [hjoin, pySplit_append_nl _ _ (h l (List.mem_cons_self _ _)),
        ih (by simp) (fun m hm => h m (List.mem_cons_of_mem l hm))]

theorem length_spacesN (n : ℕ) : (spacesN n).length = n := by simp [spacesN]

theorem nl_not_mem_spacesN (n : ℕ) : '\n' ∉ spacesN n := by
  intro hm
  have := (List.mem_replicate.mp hm).2
  exact absurd this (by decide)

theorem nl_not_mem_spacesZ (k : ℤ) : '\n' ∉ spacesZ k := by
  intro hm
  have := (List.mem_replicate.mp hm).2
  exact absurd this (by decide)

/-- `Int.fdiv` of a natural cast by 2 is natural division (Python `//`). -/
theorem fdiv_two_ofNat (p : ℕ) : Int.fdiv (p : ℤ) 2 = ((p / 2 : ℕ) : ℤ) := by
  have h := (Int.ofNat_fdiv p 2).symm
  simpa using h

/-- The caption band's lines are all exactly `columns` characters and keep
no newline of their own (its text is a slice of the caption). -/
theorem caption_band_facts (columns : ℕ) (caption : List Char)
    (hc : 2 ≤ columns) (hcap : '\n' ∉ caption) :
    ∀ l ∈ caption_band (columns : ℤ) 1 caption, l.length = columns ∧ '\n' ∉ l := by
  have hk : (0 : ℤ) ≤ (columns : ℤ) - 2 * (1 : ℕ) := by omega
  have htext : pySliceTo caption ((columns : ℤ) - 2 * (1 : ℕ)) =
      caption.take ((columns : ℤ) - 2 * (1 : ℕ)).toNat := by
    unfold pySliceTo
    rw [if_pos hk]
  set t : ℕ := ((columns : ℤ) - 2 * (1 : ℕ)).toNat with ht
  have htn : t = columns - 2 := by omega
  have htlen : (caption.take t).length = min t caption.length := by
    simp [List.length_take]
  set tl : ℕ := (caption.take t).length with htl
  have htle : tl ≤ columns - 2 := by omega
  have hpad : (columns : ℤ) - 2 * (1 : ℕ) - tl = ((columns - 2 - tl : ℕ) : ℤ) := by omega
  set p : ℕ := columns - 2 - tl with hp
  have hnotext : '\n' ∉ caption.take t := fun hm => hcap (List.take_subset t caption hm)
  intro l hl
  unfold caption_band at hl
  rw [htext] at hl
  simp only [List.mem_cons, List.not_mem_nil, or_false] at hl
  rcases hl with rfl | rfl | rfl
  · constructor
    · simp [spacesZ]
    · exact nl_not_mem_spacesZ _
  · rw [hpad, fdiv_two_ofNat]
    constructor
    · have h1 : ((p : ℤ) - ((p / 2 : ℕ) : ℤ)).toNat = p - p / 2 := by omega
      have h2 : (((p / 2 : ℕ) : ℤ)).toNat = p / 2 := by omega
      simp only [List.length_append, length_spacesN, spacesZ, List.length_replicate,
        h1, h2, ← htl]
      have hhalf : p / 2 ≤ p := Nat.div_le_self p 2
      omega
    · intro hm
      simp only [List.mem_append] at hm
      rcases hm with ((((hm | hm) | hm) | hm) | hm)
      · exact nl_not_mem_spacesN _ hm
      · exact nl_not_mem_spacesZ _ hm
      · exact hnotext hm
      · exact nl_not_mem_spacesZ _ hm
      · exact nl_not_mem_spacesN _ hm
  · constructor
    · simp [spacesZ]
    · exact nl_not_mem_spacesZ _

/-- `render_image_lines` with the border flag set, reduced. -/
theorem render_image_lines_true (grid : List (List ℕ)) (columns : ℕ)
    (caption : List Char) :
    render_image_lines grid columns true caption =
      match mapO (fun y =>
          match half_block_line grid y (((columns : ℤ) - 2).toNat) with
          | none => none
          | some pr => some (spacesN 1 ++ pr.map (fun _ => glyph0) ++ spacesN 1))
        (pyRange2 grid.length) with
      | none => none
      | some body =>
        some ([spacesN columns] ++ body ++
          (if caption ≠ [] then caption_band (columns : ℤ) 1 caption
           else [spacesN columns, spacesN columns, spacesN columns, spacesN columns])) := rfl

/-- Claim C7 (amended): with border=true, whenever `render_image` returns
text and the caption contains no newline, every line of that text is
exactly `columns` visible characters wide — border, caption and padding
bands included.  (A caption holding a newline breaks this; see the
counterexample.) -/
theorem ax_c7_border_width (columns : ℕ) (grid : List (List ℕ))
    (caption : List Char) (L : List (List Char)) (hc : 3 ≤ columns)
    (hcap : '\n' ∉ caption)
    (hL : text_out grid columns true caption = some L) :
    ∀ l ∈ L, l.length = columns := by
  unfold text_out at hL
  cases hr : render_image_lines grid columns true caption with
  | none => rw [hr] at hL; exact absurd hL (by simp)
  | some ls =>
    rw [hr] at hL
    rw [Option.some.injEq] at hL
    subst hL
    rw [render_image_lines_true] at hr
    revert hr
    cases hbody : mapO (fun y =>
        match half_block_line grid y (((columns : ℤ) - 2).toNat) with
        | none => none
        | some pr => some (spacesN 1 ++ pr.map (fun _ => glyph0) ++ spacesN 1))
      (pyRange2 grid.length) with
    | none => intro hr; exact absurd hr (by simp)
    | some body =>
      intro hr
      rw [Option.some.injEq] at hr
      subst hr
      have hfacts : ∀ l ∈ [spacesN columns] ++ body ++
          (if caption ≠ [] then caption_band (columns : ℤ) 1 caption
           else [spacesN columns, spacesN columns, spacesN columns, spacesN columns]),
          l.length = columns ∧ '\n' ∉ l := by
        intro l hl
        rcases List.mem_append.mp hl with hl1 | hlbot
        · rcases List.mem_append.mp hl1 with hltop | hlbody
          · rcases List.mem_cons.mp hltop with rfl | hfalse
            · exact ⟨length_spacesN _, nl_not_mem_spacesN _⟩
            · simp at hfalse
          · obtain ⟨y, _, hfy⟩ := mapO_mem hbody l hlbody
            revert hfy
            cases hhl : half_block_line grid y (((columns : ℤ) - 2).toNat) with
            | none => intro hfy; exact absurd hfy (by simp)
            | some pr =>
              intro hfy
              rw [Option.some.injEq] at hfy
              subst hfy
              have hpr : pr.length = ((columns : ℤ) - 2).toNat := by
                unfold half_block_line at hhl
                have := mapO_length hhl
                simpa using this
              constructor
              · simp only [List.length_append, length_spacesN, List.length_map, hpr]
                omega
              · intro hm
                simp only [List.mem_append] at hm
                rcases hm with (hm | hm) | hm
                · exact nl_not_mem_spacesN _ hm
                · rcases List.mem_map.mp hm with ⟨_, _, habs⟩
                  exact absurd habs (by decide)
                · exact nl_not_mem_spacesN _ hm
        · by_cases hcap0 : caption = []
          · rw [if_neg (by simp [hcap0])] at hlbot
            rcases List.mem_cons.mp hlbot with rfl | hlbot2 <;>
              [skip; rcases List.mem_cons.mp hlbot2 with rfl | hlbot3] <;>
              first
              | exact ⟨length_spacesN _, nl_not_mem_spacesN _⟩
              | (rcases List.mem_cons.mp hlbot3 with rfl | hlbot4 <;>
                  first
                  | exact ⟨length_spacesN _, nl_not_mem_spacesN _⟩
                  | (rcases List.mem_cons.mp hlbot4 with rfl | hfalse <;>
                      first
                      | exact ⟨length_spacesN _, nl_not_mem_spacesN _⟩
                      | simp at hfalse))
          · rw [if_pos hcap0] at hlbot
            exact caption_band_facts columns caption (by omega) hcap l hlbot
      have hnonempty : [spacesN columns] ++ body ++
          (if caption ≠ [] then caption_band (columns : ℤ) 1 caption
           else [spacesN columns, spacesN columns, spacesN columns, spacesN columns]) ≠ [] := by
        simp
      rw [pySplit_pyJoin hnonempty (fun l hl => (hfacts l hl).2)]
      intro l hl
      exact (hfacts l hl).1

/-- Claim C7, witness: a bordered 5-column render of a 4×3 grid with the
caption `"hi"` — all six lines are 5 characters wide. -/
theorem ax_c7_witness :
    text_out (List.replicate 4 (List.replicate 3 16)) 5 true ['h', 'i'] =
      some [[' ', ' ', ' ', ' ', ' '], [' ', '▀', '▀', '▀', ' '],
        [' ', '▀', '▀', '▀', ' '], [' ', ' ', ' ', ' ', ' '],
        [' ', 'h', 'i', ' ', ' '], [' ', ' ', ' ', ' ', ' ']] ∧
    ([' ', '▀', '▀', '▀', ' '] : List Char).length = 5 :=
  ⟨by decide,
    ax_c7_border_width 5 (List.replicate 4 (List.replicate 3 16)) ['h', 'i']
      [[' ', ' ', ' ', ' ', ' '], [' ', '▀', '▀', '▀', ' '],
        [' ', '▀', '▀', '▀', ' '], [' ', ' ', ' ', ' ', ' '],
        [' ', 'h', 'i', ' ', ' '], [' ', ' ', ' ', ' ', ' ']]
      (by norm_num) (by decide) (by decide)
      [' ', '▀', '▀', '▀', ' '] (by decide)⟩

/-- Claim C7, concrete counterexample: with border=true and width 5, the
caption `"a\nb"` (a legal argument string) is embedded verbatim, and the
returned text's lines have widths 5,5,5,5,2,2,5 — not all 5. -/
theorem ax_c7_counterexample :
    (text_out (List.replicate 4 (List.replicate 3 16)) 5 true ['a', '\n', 'b']).map
        (fun L => L.map List.length) = some [5, 5, 5, 5, 2, 2, 5] ∧
    (text_out (List.replicate 4 (List.replicate 3 16)) 5 true ['a', '\n', 'b']).map
        (fun L => L.all (fun l => l.length == 5)) = some false := by
  constructor <;> decide
